import Mathlib

/-!
Shallow embedding of the vimeo/go-taglog library (package `taglog`) and
verification of properties of its tag store, plain-line formatter, plain-line
parser and plain-to-JSON stream converter.

Modelling conventions:
* Go strings are Lean `String`s; character scanning works on `String.data`
  (the library's inputs are ASCII, so Go byte indices coincide with char
  indices).
* A Go `map[string]T` is modelled as an association list with unique keys;
  map assignment replaces the binding in place (or appends a fresh binding),
  deletion filters the binding out.  Go map iteration order is unspecified;
  the model iterates in list order.  Every property proved below is
  insensitive to that order (plain rendering sorts its tokens, and the
  export/import properties are stated per key).
* Mutating methods become functions returning the updated value; `io.Writer`
  sinks are modelled by returning the written record.
-/

namespace Taglog

/-- Value stored for one tag key: Go `interface\x7b\x7d` restricted to `string`
or `[]string` (see the comment on type `Tags` in the source). -/
inductive TagVal where
  | str (s : String)
  | strs (l : List String)
deriving DecidableEq, Repr

/-- Association-list model of Go `type Tags map[string]interface\x7b\x7d`. -/
abbrev Tags := List (String × TagVal)

/-- Go map read `t[key]`: `none` models a missing key (`nil`). -/
def Tags.lookup (t : Tags) (key : String) : Option TagVal :=
  (t.find? (fun p => p.1 == key)).map (fun p => p.2)

/-- Go map assignment `t[key] = v`: replace the binding in place, or append a
fresh binding when the key is absent. -/
def Tags.assign : Tags → String → TagVal → Tags
  | [], key, v => [(key, v)]
  | (k, w) :: rest, key, v =>
    if k == key then (key, v) :: rest else (k, w) :: Tags.assign rest key v

/-- Go `delete(t, key)`. -/
def Tags.del (t : Tags) (key : String) : Tags :=
  t.filter (fun p => !(p.1 == key))

/-- One iteration of the loop body of `Tags.Add` (levels.go): switch on the
current value of `t[key]`. -/
def Tags.add1 (t : Tags) (key v : String) : Tags :=
  match Tags.lookup t key with
  | none => Tags.assign t key (.str v)
  | some (.str vs) => Tags.assign t key (.strs [vs, v])
  | some (.strs vs) => Tags.assign t key (.strs (vs ++ [v]))

/-- `func (t Tags) Add(key string, value ...string)`: add one or more values
to a key. -/
def Tags.Add (t : Tags) (key : String) (value : List String) : Tags :=
  value.foldl (fun t v => Tags.add1 t key v) t

/-- `func (t Tags) GetAll(key string) []string`. -/
def Tags.GetAll (t : Tags) (key : String) : List String :=
  match Tags.lookup t key with
  | some (.str vs) => [vs]
  | some (.strs vs) => vs
  | none => []

/-- `func (t Tags) Get(key string) string`.  (`vs[0]` on a `[]string` value;
the empty-sequence default is unreachable through the published operations.) -/
def Tags.Get (t : Tags) (key : String) : String :=
  match Tags.lookup t key with
  | some (.str vs) => vs
  | some (.strs vs) => vs.headD ""
  | none => ""

/-- One iteration of the loop body of `Tags.Merge`: add `v` unless it is
already among the key's current values. -/
def Tags.merge1 (t : Tags) (key v : String) : Tags :=
  if v ∈ Tags.GetAll t key then t else Tags.add1 t key v

/-- `func (t Tags) Merge(key string, value ...string)`. -/
def Tags.Merge (t : Tags) (key : String) (value : List String) : Tags :=
  value.foldl (fun t v => Tags.merge1 t key v) t

/-- `func (t Tags) Push(key string, value ...string)`: same as `Add`. -/
def Tags.Push (t : Tags) (key : String) (value : List String) : Tags :=
  Tags.Add t key value

/-- `func (t Tags) Pop(key string)`: remove the last value for a key. -/
def Tags.Pop (t : Tags) (key : String) : Tags :=
  match Tags.lookup t key with
  | none => t
  | some (.str _) => Tags.del t key
  | some (.strs vs) =>
    if vs.length ≤ 1 then Tags.del t key
    else if vs.length = 2 then Tags.assign t key (.str (vs.headD ""))
    else Tags.assign t key (.strs vs.dropLast)

/-- `func (t Tags) Set(key string, value ...string)`: delete then add. -/
def Tags.Set (t : Tags) (key : String) (value : List String) : Tags :=
  Tags.Add (Tags.del t key) key value

/-- `func (t Tags) DelAll()`. -/
def Tags.DelAll (_ : Tags) : Tags := []

/-- Normal form of one tag value used by `Export` (a single string becomes a
one-element slice, a slice is copied). -/
def tagValList : TagVal → List String
  | .str s => [s]
  | .strs vs => vs

/-- `func (t Tags) Export() map[string][]string`. -/
def Tags.Export (t : Tags) : List (String × List String) :=
  t.map (fun p => (p.1, tagValList p.2))

/-- `func (t Tags) Import(tags map[string][]string)`: merge every exported
entry into the store. -/
def Tags.Import (t : Tags) (tags : List (String × List String)) : Tags :=
  tags.foldl (fun acc p => Tags.Merge acc p.1 p.2) t

/-- `func (t Tags) Copy() Tags`: deep copy through `Export`/`Import`. -/
def Tags.Copy (t : Tags) : Tags :=
  Tags.Import [] (Tags.Export t)

/-! ### Go `strings` helpers -/

/-- Go `strings.Split(s, sep)` for a one-character separator, on char lists
(every separator used by the library — `" "`, `"="`, `","` — is one char). -/
def goSplit (sep : Char) : List Char → List (List Char)
  | [] => [[]]
  | c :: rest =>
    match goSplit sep rest with
    | [] => [[]]
    | h :: t => if c = sep then [] :: h :: t else (c :: h) :: t

/-- Go `strings.Join(elems, sep)` on char lists. -/
def goJoin (sep : Char) : List (List Char) → List Char
  | [] => []
  | [l] => l
  | l :: rest => l ++ sep :: goJoin sep rest

/-- Go `strings.TrimLeft(s, " ")`: drop leading spaces. -/
def goTrimLeftSpaces (l : List Char) : List Char :=
  l.dropWhile (fun c => c = ' ')

/-- Go `strings.ToUpper` restricted to ASCII input. -/
def goToUpper (s : String) : String :=
  String.mk (s.data.map Char.toUpper)

/-- Byte-wise lexicographic comparison used by Go `sort.Strings`
(for ASCII, char order equals byte order). -/
def charListLt : List Char → List Char → Bool
  | [], [] => false
  | [], _ :: _ => true
  | _ :: _, [] => false
  | a :: as, b :: bs =>
    if a.toNat < b.toNat then true
    else if b.toNat < a.toNat then false
    else charListLt as bs

/-- Lexicographic order on strings, as compared by Go `sort.Strings`. -/
def strLt (a b : String) : Bool := charListLt a.data b.data

/-- Insertion step of the sort modelling `sort.Strings`. -/
def insertSorted (s : String) : List String → List String
  | [] => [s]
  | x :: xs => if strLt s x then s :: x :: xs else x :: insertSorted s xs

/-- Deterministic model of Go `sort.Strings` (lexicographically sorted
permutation; comparison sorts of strings agree on the result). -/
def sortStrings (l : List String) : List String :=
  l.foldr insertSorted []

/-! ### Formats, flags and timestamp layouts (taglog.go) -/

def FormatPlain : Nat := 0
def FormatJSON : Nat := 1

def TimestampFormatTypeISO : Nat := 0
def TimestampFormatTypeStd : Nat := 1
def TimestampFormatTypeUnknown : Nat := 2

def TimestampFormatISO : String := "2006-01-02T15:04:05Z07:00"
def TimestampFormatISOTime : String := "15:04:05Z07:00"
def TimestampFormatISODate : String := "2006-01-02"
def TimestampFormatStd : String := "2006/01/02 15:04:05"
def TimestampFormatStdTime : String := "15:04:05"
def TimestampFormatStdDate : String := "2006/01/02"

def Ldate : Nat := 1
def Ltime : Nat := 2
def Lmicroseconds : Nat := 4
def Llongfile : Nat := 8
def Lshortfile : Nat := 16
def LUTC : Nat := 32
def LstdFlags : Nat := Ldate ||| Ltime
def Lmilliseconds : Nat := 65536

/-- Go struct `Params` (the log-formatting parameter bundle).  The field
`Pfx` models the source field `Prefix` (renamed in the embedding only). -/
structure Params where
  Format : Nat
  TimestampFormat : String
  TimestampFormatType : Nat
  Pfx : String
  Flag : Nat
deriving DecidableEq, Repr

/-- `func GenTimestampFormat(tsFormatType int, flag int) string`: derive the
timestamp layout from the format type and flag bits. -/
def GenTimestampFormat (tsFormatType : Nat) (flag : Nat) : String :=
  if tsFormatType = TimestampFormatTypeISO then
    if flag &&& (Ldate ||| Ltime) ≠ 0 then
      if flag &&& Ldate ≠ 0 ∧ flag &&& Ltime ≠ 0 then
        if flag &&& Lmicroseconds ≠ 0 then "2006-01-02T15:04:05.000000Z07:00"
        else if flag &&& Lmilliseconds ≠ 0 then "2006-01-02T15:04:05.000Z07:00"
        else TimestampFormatISO
      else if flag &&& Ldate ≠ 0 then TimestampFormatISODate
      else
        if flag &&& Lmicroseconds ≠ 0 then "15:04:05.000000Z07:00"
        else if flag &&& Lmilliseconds ≠ 0 then "15:04:05.000Z07:00"
        else TimestampFormatISOTime
    else ""
  else if tsFormatType = TimestampFormatTypeStd then
    if flag &&& (Ldate ||| Ltime) ≠ 0 then
      if flag &&& Ldate ≠ 0 ∧ flag &&& Ltime ≠ 0 then
        if flag &&& Lmicroseconds ≠ 0 then "2006/01/02 15:04:05.000000"
        else if flag &&& Lmilliseconds ≠ 0 then "2006/01/02 15:04:05.000"
        else TimestampFormatStd
      else if flag &&& Ldate ≠ 0 then TimestampFormatStdDate
      else
        if flag &&& Lmicroseconds ≠ 0 then "15:04:05.000000"
        else if flag &&& Lmilliseconds ≠ 0 then "15:04:05.000"
        else TimestampFormatStdTime
    else ""
  else ""

/-- `func calcTsFormat(params *Params) string`. -/
def calcTsFormat (params : Params) : String :=
  if params.TimestampFormat ≠ "" then params.TimestampFormat
  else GenTimestampFormat params.TimestampFormatType params.Flag

/-- Default parameter values (`var DefaultParams`). -/
def DefaultParams : Params :=
  { Format := FormatPlain
    TimestampFormat := TimestampFormatStd
    TimestampFormatType := TimestampFormatTypeStd
    Pfx := ""
    Flag := LstdFlags }

/-! ### Model of Go stdlib `time.Parse` / `time.Format`

Modelled from Go's standard library (external to this repository): the
reference-date layout tokens `2006` (year), `01` (month), `02` (day),
`15` (hour), `04` (minute), `05` (second) are interpreted; every other
layout character must match the input literally.  Fractional-second and
time-zone tokens are not interpreted (no claim exercises them), and the
day-of-month upper bound is the month-independent 31. -/

/-- Parsed calendar fields (zero value stands for Go's zero time). -/
structure TimeFields where
  year : Nat := 0
  month : Nat := 0
  day : Nat := 0
  hour : Nat := 0
  minute : Nat := 0
  second : Nat := 0
deriving DecidableEq, Repr

/-- Numeric value of an ASCII digit. -/
def digitVal (c : Char) : Option Nat :=
  if '0' ≤ c ∧ c ≤ '9' then some (c.toNat - '0'.toNat) else none

/-- Read exactly two digits. -/
def readDigits2 : List Char → Option (Nat × List Char)
  | a :: b :: rest =>
    match digitVal a, digitVal b with
    | some da, some db => some (10 * da + db, rest)
    | _, _ => none
  | _ => none

/-- Read exactly four digits. -/
def readDigits4 : List Char → Option (Nat × List Char)
  | a :: b :: c :: d :: rest =>
    match digitVal a, digitVal b, digitVal c, digitVal d with
    | some da, some db, some dc, some dd =>
      some (1000 * da + 100 * db + 10 * dc + dd, rest)
    | _, _, _, _ => none
  | _ => none

/-- Walk a layout against a value, collecting calendar fields; `none` models
a `time.Parse` error. -/
def parseLayout : List Char → List Char → TimeFields → Option TimeFields
  | [], [], f => some f
  | [], _ :: _, _ => none
  | '2' :: '0' :: '0' :: '6' :: rest, v, f =>
    match readDigits4 v with
    | some (n, v') => parseLayout rest v' { f with year := n }
    | none => none
  | '0' :: '1' :: rest, v, f =>
    match readDigits2 v with
    | some (n, v') =>
      if 1 ≤ n ∧ n ≤ 12 then parseLayout rest v' { f with month := n } else none
    | none => none
  | '0' :: '2' :: rest, v, f =>
    match readDigits2 v with
    | some (n, v') =>
      if 1 ≤ n ∧ n ≤ 31 then parseLayout rest v' { f with day := n } else none
    | none => none
  | '1' :: '5' :: rest, v, f =>
    match readDigits2 v with
    | some (n, v') =>
      if n ≤ 23 then parseLayout rest v' { f with hour := n } else none
    | none => none
  | '0' :: '4' :: rest, v, f =>
    match readDigits2 v with
    | some (n, v') =>
      if n ≤ 59 then parseLayout rest v' { f with minute := n } else none
    | none => none
  | '0' :: '5' :: rest, v, f =>
    match readDigits2 v with
    | some (n, v') =>
      if n ≤ 59 then parseLayout rest v' { f with second := n } else none
    | none => none
  | c :: rest, v, f =>
    match v with
    | c' :: v' => if c = c' then parseLayout rest v' f else none
    | [] => none

/-- Zero-padded two-digit rendering. -/
def pad2 (n : Nat) : List Char :=
  (if n < 10 then "0" ++ toString n else toString n).data

/-- Zero-padded four-digit rendering. -/
def pad4 (n : Nat) : List Char :=
  (if n < 10 then "000" ++ toString n
   else if n < 100 then "00" ++ toString n
   else if n < 1000 then "0" ++ toString n
   else toString n).data

/-- Render calendar fields through a layout (model of `time.Time.Format`). -/
def renderLayout : List Char → TimeFields → List Char
  | [], _ => []
  | '2' :: '0' :: '0' :: '6' :: rest, f => pad4 f.year ++ renderLayout rest f
  | '0' :: '1' :: rest, f => pad2 f.month ++ renderLayout rest f
  | '0' :: '2' :: rest, f => pad2 f.day ++ renderLayout rest f
  | '1' :: '5' :: rest, f => pad2 f.hour ++ renderLayout rest f
  | '0' :: '4' :: rest, f => pad2 f.minute ++ renderLayout rest f
  | '0' :: '5' :: rest, f => pad2 f.second ++ renderLayout rest f
  | c :: rest, f => c :: renderLayout rest f

/-! ### Plain-line parser (`Parser.parseLinePlain`, parse.go) -/

/-- Character-scanning loop of `parseLinePlain`: `i` is the current index,
the `Option` argument holds the characters accumulated since the last
unmatched `[` (Go keeps `tokenStart` and slices `line[tokenStart+1:i]`,
which accumulates the same characters), `toks` the collected bracket tokens
and `msgStart` the current message start index.  A `]` seen outside a token
breaks out of the loop. -/
def scanBrackets : List Char → Nat → Option (List Char) → List (List Char) → Nat →
    List (List Char) × Nat
  | [], _, _, toks, msgStart => (toks, msgStart)
  | c :: rest, i, none, toks, msgStart =>
    if c = ']' then (toks, msgStart)
    else if c = '[' then scanBrackets rest (i + 1) (some []) toks msgStart
    else scanBrackets rest (i + 1) none toks msgStart
  | c :: rest, i, some acc, toks, msgStart =>
    if c = ']' then scanBrackets rest (i + 1) none (toks ++ [acc]) (i + 2)
    else scanBrackets rest (i + 1) (some (acc ++ [c])) toks msgStart

/-- Loop body of the bracket-token pass of `parseLinePlain`: split the token
on `=` (`strings.Split`); a token without `=` is a bare global tag, otherwise
`pairs[0]` is the key and `pairs[1]` is split on `,` into the values. -/
def addToken (tags : Tags) (t : List Char) : Tags :=
  let pairs := goSplit '=' t
  if pairs.length = 1 then
    Tags.Add tags "tags" [String.mk (pairs.headD [])]
  else
    Tags.Add tags (String.mk (pairs.headD []))
      ((goSplit ',' (pairs.getD 1 [])).map String.mk)

/-- Shared tail of `parseLinePlain` after prefix and timestamp handling:
bracket scan, empty-line check, message extraction, token splitting. -/
def parseLineBody (tags : Tags) (line : List Char) : Except String Tags :=
  let scanned := scanBrackets line 0 none [] 0
  if scanned.2 ≥ line.length then .error "Empty line"
  else
    let tags := Tags.Add tags "msg" [String.mk (line.drop scanned.2)]
    .ok (scanned.1.foldl addToken tags)

/-- `func (this *Parser) parseLinePlain(line string, timestampFormat string)
(Tags, error)`.  The `error` results carry the exact source messages. -/
def parseLinePlain (params : Params) (line timestampFormat : String) :
    Except String Tags :=
  let tags : Tags := []
  if params.Pfx ≠ "" ∧ ¬ params.Pfx.data.isPrefixOf line.data then
    .error "Log format mismatch: prefix"
  else
    let lchars :=
      if params.Pfx ≠ "" then line.data.drop params.Pfx.data.length else line.data
    let tsFormat := calcTsFormat params
    if tsFormat = "" then parseLineBody tags lchars
    else
      let fmtTokens := (goSplit ' ' tsFormat.data).length
      let lineSplit := goSplit ' ' lchars
      if lineSplit.length < fmtTokens then .error "Log format mismatch: timestamp"
      else
        let tsStr := goJoin ' ' (lineSplit.take fmtTokens)
        match parseLayout tsFormat.data tsStr {} with
        | none => .error "Log format mismatch: timestamp"
        | some tf =>
          let tags := Tags.Add tags "timestamp"
            [if timestampFormat = "" then String.mk tsStr
             else String.mk (renderLayout timestampFormat.data tf)]
          let afterTs :=
            if tsStr.isPrefixOf lchars then lchars.drop tsStr.length else lchars
          parseLineBody tags (goTrimLeftSpaces afterTs)

/-! ### Stream converter (`Parser.PlainToJSON`, parse.go)

The output sink is modelled as the list of emitted records: `some tags` for
the JSON marshalling of a record, `none` for the `null` that
`json.Marshal(&lineTags)` produces when `lineTags` is still the nil map.
The input reader is the list of scanned lines; `bufio.Scanner` never fails
on an in-memory source, so `scanner.Err()` is `none`. -/

/-- Continuation step: `lineTags.Set("msg", lineTags.Get("msg") + "\n" + s)`.
With a nil `lineTags` the Go code would panic; that state is unreachable
because the loop only runs after a header line was found. -/
def contMsg : Option Tags → String → Option Tags
  | some lt, s => some (Tags.Set lt "msg" [Tags.Get lt "msg" ++ "\n" ++ s])
  | none, _ => none

/-- First loop of `PlainToJSON`: skip lines until one parses as a header.
Returns the last scanned line text, the pending record and the remaining
input. -/
def findFirstHeader (params : Params) (tsFmt : String) :
    List String → String → String × Option Tags × List String
  | [], s => (s, none, [])
  | l :: rest, _ =>
    match parseLinePlain params l tsFmt with
    | .ok tags => (l, some tags, rest)
    | .error _ => findFirstHeader params tsFmt rest l

/-- Second loop of `PlainToJSON`: a line that parses as a header flushes the
pending record and replaces it; any parse failure appends the raw line to the
pending record's message.  Returns the flushed records and the final pending
record. -/
def convertLoop (params : Params) (tsFmt : String) :
    List String → Option Tags → List (Option Tags) × Option Tags
  | [], lt => ([], lt)
  | l :: rest, lt =>
    match parseLinePlain params l tsFmt with
    | .ok tags =>
      let out := convertLoop params tsFmt rest (some tags)
      (lt :: out.1, out.2)
    | .error _ => convertLoop params tsFmt rest (contMsg lt l)

/-- `func (this *Parser) PlainToJSON(input io.Reader, output io.Writer,
timestampFormat string) error`: returns the emitted records and the returned
error. -/
def PlainToJSON (params : Params) (input : List String) (tsFmt : String) :
    List (Option Tags) × Option String :=
  let fst := findFirstHeader params tsFmt input ""
  if fst.1 = "" then ([], none)
  else
    let conv := convertLoop params tsFmt fst.2.2 fst.2.1
    (conv.1 ++ [conv.2], none)

/-! ### Level sets (levels.go) -/

/-- Go struct `LevelSet`: a name-to-rank map plus a default level name. -/
structure LevelSet where
  levels : List (String × Nat)
  defaultLevel : String
deriving DecidableEq, Repr

/-- Go map assignment for the level-rank map. -/
def levelsAssign : List (String × Nat) → String → Nat → List (String × Nat)
  | [], key, v => [(key, v)]
  | (k, w) :: rest, key, v =>
    if k == key then (key, v) :: rest else (k, w) :: levelsAssign rest key v

/-- Go map read with the zero-value default `0` for a missing level name. -/
def levelsRank (m : List (String × Nat)) (key : String) : Nat :=
  ((m.find? (fun p => p.1 == key)).map (fun p => p.2)).getD 0

/-- `func NewLevelSet(levels []string, defaultLevel string) *LevelSet`.
When the default is not a member, the source only reassigns a local
variable, so the stored default stays the zero value `""`. -/
def NewLevelSet (levels : List String) (defaultLevel : String) : LevelSet :=
  let m := levels.enum.foldl
    (fun m p => levelsAssign m (goToUpper p.2) p.1) []
  let defaultNom := goToUpper defaultLevel
  if (m.find? (fun p => p.1 == defaultNom)).isSome then ⟨m, defaultLevel⟩
  else ⟨m, ""⟩

/-- `func (ls *LevelSet) Less(a, b string) bool`. -/
def LevelSet.Less (ls : LevelSet) (a b : String) : Bool :=
  levelsRank ls.levels (goToUpper a) < levelsRank ls.levels (goToUpper b)

/-- `func (ls *LevelSet) Contains(lvl string) bool`. -/
def LevelSet.Contains (ls : LevelSet) (lvl : String) : Bool :=
  (ls.levels.find? (fun p => p.1 == goToUpper lvl)).isSome

/-- `var DefaultLevelSet`. -/
def DefaultLevelSet : LevelSet :=
  NewLevelSet ["DEBUG", "INFO", "NOTICE", "WARNING", "ERROR", "CRITICAL",
    "ALERT", "EMERGENCY"] "INFO"

/-! ### Logger and plain/JSON output (taglog.go) -/

/-- Go struct `Logger`.  The mutex is meaningless in a sequential model and
the `out io.Writer` sink is modelled by returning the written record from
`Loutput`. -/
structure Logger where
  tags : Tags
  levelset : Option LevelSet
  level : String
  levelTag : String
  standardLevel : String
  params : Params
deriving DecidableEq, Repr

/-- Record written to the output sink: the full byte string for the plain
format (trailing newline included), or the tag snapshot handed to
`json.Marshal` for the JSON format. -/
inductive LogRecord where
  | plain (line : String)
  | json (tags : Tags)
deriving DecidableEq, Repr

/-- Tag-token rendering loop of the `FormatPlain` branch of `Loutput`: one
`[value]` token per value of the global key `"tags"`, one
`[key=v1,v2,...]` token for every other key. -/
def renderTagTokens (tags : Tags) : List String :=
  tags.foldl
    (fun acc p =>
      match p.2 with
      | .str vs =>
        if p.1 = "tags" then acc ++ ["[" ++ vs ++ "]"]
        else acc ++ ["[" ++ p.1 ++ "=" ++ vs ++ "]"]
      | .strs vs =>
        if p.1 = "tags" then acc ++ vs.map (fun v0 => "[" ++ v0 ++ "]")
        else acc ++ ["[" ++ p.1 ++ "=" ++ String.intercalate "," vs ++ "]"])
    []

/-- Output phase of `Loutput` after level gating: `tags1` is the store after
the optional level-tag `Set`, `delLevelTag` records whether the deferred
`tags.Del(levelTag)` was registered, `nowStr` is `now.Format(tsFormat)`
(empty exactly when the resolved layout is empty). -/
def finishOutput (lg : Logger) (tags1 : Tags) (delLevelTag : Bool)
    (nowStr s : String) : Logger × Option LogRecord :=
  let finalTags := if delLevelTag then Tags.del tags1 lg.levelTag else tags1
  if lg.params.Format = FormatJSON then
    let tags2 := if nowStr ≠ "" then Tags.Set tags1 "timestamp" [nowStr] else tags1
    let tags3 := Tags.Set tags2 "msg" [s]
    ({ lg with tags := if delLevelTag then Tags.del tags3 lg.levelTag else tags3 },
     some (.json tags3))
  else if lg.params.Format = FormatPlain then
    let line0 : List String := if nowStr ≠ "" then [nowStr] else []
    let lineTags := sortStrings (renderTagTokens tags1)
    let line := line0 ++ lineTags ++ (if s ≠ "" then [s] else [])
    ({ lg with tags := finalTags },
     some (.plain (lg.params.Pfx ++ String.intercalate " " line ++ "\n")))
  else
    ({ lg with tags := finalTags }, some (.plain "\n"))

/-- `func (this *Logger) Loutput(level string, s string) error`: level
gating, optional level-tag injection (with deferred removal), then plain or
JSON rendering.  Returns the updated logger and the record written to the
sink (`none` when the record is discarded). -/
def Logger.Loutput (lg : Logger) (nowStr level s : String) :
    Logger × Option LogRecord :=
  if (level != "") && lg.levelset.isSome && (lg.level != "") then
    let ls := lg.levelset.getD ⟨[], ""⟩
    if ls.Less level lg.level then (lg, none)
    else
      let doTag := (lg.levelTag != "") && ls.Contains level
      let tags1 :=
        if doTag then Tags.Set lg.tags lg.levelTag [goToUpper level] else lg.tags
      finishOutput lg tags1 doTag nowStr s
  else
    finishOutput lg lg.tags false nowStr s

/-! ### Heap model of Go slice aliasing (for `Logger.Copy`)

`Logger.Copy` (taglog.go) copies the tag map entry by entry:

    tl.tags = make(Tags)
    for k, v := range this.tags \x7b tl.tags[k] = v \x7d

so a `[]string` value is copied as a slice header (pointer, length,
capacity) and the two loggers share its backing array.  To reason about
that sharing, this section re-embeds the tag operations with slices made
explicit: a heap of backing arrays, slice headers pointing into it, and
Go's `append` semantics (write in place while capacity remains, reallocate
with doubled capacity otherwise). -/

/-- Go slice header: backing-array identifier, length and capacity.
All slices built by the tag operations start at offset 0. -/
structure GoSlice where
  id : Nat
  len : Nat
  cap : Nat
deriving DecidableEq, Repr

/-- Heap of backing arrays; an array is stored at its full capacity. -/
abbrev Heap := List (List String)

/-- Tag value with the slice case kept as a header into the heap. -/
inductive HVal where
  | hstr (s : String)
  | hslice (sl : GoSlice)
deriving DecidableEq, Repr

/-- Tag map of the heap model. -/
abbrev HTags := List (String × HVal)

/-- Observable content of a slice: the first `len` cells of its array. -/
def heapRead (h : Heap) (sl : GoSlice) : List String :=
  (h.getD sl.id []).take sl.len

/-- Write one cell of a backing array. -/
def heapWrite (h : Heap) (id pos : Nat) (v : String) : Heap :=
  h.set id ((h.getD id []).set pos v)

/-- Go `append(vs, v)` for a `[]string`: in-place write while `len < cap`,
else reallocation with doubled capacity (the growth rule for small slices). -/
def goAppend (h : Heap) (sl : GoSlice) (v : String) : Heap × GoSlice :=
  if sl.len < sl.cap then
    (heapWrite h sl.id sl.len v, ⟨sl.id, sl.len + 1, sl.cap⟩)
  else
    let newcap := if sl.cap = 0 then 1 else 2 * sl.cap
    let contents := heapRead h sl ++ [v]
    (h ++ [contents ++ List.replicate (newcap - contents.length) ""],
     ⟨h.length, sl.len + 1, newcap⟩)

/-- Map read of the heap model. -/
def hLookup (t : HTags) (key : String) : Option HVal :=
  (t.find? (fun p => p.1 == key)).map (fun p => p.2)

/-- Map assignment of the heap model. -/
def hAssign : HTags → String → HVal → HTags
  | [], key, v => [(key, v)]
  | (k, w) :: rest, key, v =>
    if k == key then (key, v) :: rest else (k, w) :: hAssign rest key v

/-- Map deletion of the heap model. -/
def hDel (t : HTags) (key : String) : HTags :=
  t.filter (fun p => !(p.1 == key))

/-- `Tags.Add` for one value, with slices explicit: the `string` case
allocates the two-element literal `[]string\x7bvs, v\x7d`, the `[]string`
case appends. -/
def hAdd1 (h : Heap) (t : HTags) (key v : String) : Heap × HTags :=
  match hLookup t key with
  | none => (h, hAssign t key (.hstr v))
  | some (.hstr vs) =>
    (h ++ [[vs, v]], hAssign t key (.hslice ⟨h.length, 2, 2⟩))
  | some (.hslice sl) =>
    let r := goAppend h sl v
    (r.1, hAssign t key (.hslice r.2))

/-- `Tags.Pop` with slices explicit: `vs[:len(vs)-1]` is a reslice of the
same backing array. -/
def hPop (h : Heap) (t : HTags) (key : String) : HTags :=
  match hLookup t key with
  | none => t
  | some (.hstr _) => hDel t key
  | some (.hslice sl) =>
    if sl.len ≤ 1 then hDel t key
    else if sl.len = 2 then hAssign t key (.hstr ((heapRead h sl).headD ""))
    else hAssign t key (.hslice ⟨sl.id, sl.len - 1, sl.cap⟩)

/-- `Tags.GetAll` with slices explicit. -/
def hGetAll (h : Heap) (t : HTags) (key : String) : List String :=
  match hLookup t key with
  | none => []
  | some (.hstr s) => [s]
  | some (.hslice sl) => heapRead h sl

/-- Tag copying of `Logger.Copy`: a fresh map holding the same values, so a
`[]string` value's slice header — and with it the backing array — is shared
between source and copy. -/
def loggerCopyTags (t : HTags) : HTags := t

/-- Tag copying of `Tags.Copy` (levels.go), which the spec describes: every
slice value is materialised into a fresh backing array (the `Export` step
copies each `[]string`). -/
def deepCopyTags (h : Heap) (t : HTags) : Heap × HTags :=
  t.foldl
    (fun acc p =>
      match p.2 with
      | .hstr s => (acc.1, acc.2 ++ [(p.1, .hstr s)])
      | .hslice sl =>
        (acc.1 ++ [heapRead acc.1 sl],
         acc.2 ++ [(p.1, .hslice ⟨acc.1.length, sl.len, sl.len⟩)]))
    (h, [])

/-- State of the aliasing scenario after the source logger has run
`AddTag("k","a"); AddTag("k","b"); AddTag("k","c")`: heap and source tags. -/
def c1Setup : Heap × HTags :=
  let s1 := hAdd1 [] [] "k" "a"
  let s2 := hAdd1 s1.1 s1.2 "k" "b"
  hAdd1 s2.1 s2.2 "k" "c"

/-- Final state after `cp := src.Copy(); cp.PopTag("k"); cp.AddTag("k","x")`:
heap, source tags, copy tags. -/
def c1Final : Heap × HTags × HTags :=
  let setup := c1Setup
  let cp0 := loggerCopyTags setup.2
  let cp1 := hPop setup.1 cp0 "k"
  let r := hAdd1 setup.1 cp1 "k" "x"
  (r.1, setup.2, r.2)

/-- Final state of the control run in which the copy is taken with the deep
copy of `Tags.Copy` instead, before the same `PopTag`/`AddTag` mutations. -/
def c1DeepFinal : Heap × HTags × HTags :=
  let setup := c1Setup
  let dc := deepCopyTags setup.1 setup.2
  let cp1 := hPop dc.1 dc.2 "k"
  let r := hAdd1 dc.1 cp1 "k" "x"
  (r.1, setup.2, r.2)

/-! ### Concrete fixtures used by the claim theorems -/

deriving instance DecidableEq for Except

/-- Success test for the parse results of `parseLinePlain`. -/
def parseOk (e : Except String Tags) : Bool :=
  match e with
  | .ok _ => true
  | .error _ => false

/-- Logger of the plain-render scenario: tags
`job_id = "123456"`, `filters = ["vol","delay"]`, empty prefix and an empty
resolved timestamp layout. -/
def lg7 : Logger :=
  { tags := [("job_id", .str "123456"), ("filters", .strs ["vol", "delay"])]
    levelset := some DefaultLevelSet
    level := "INFO"
    levelTag := "level"
    standardLevel := ""
    params := { Format := FormatPlain, TimestampFormat := "",
                TimestampFormatType := TimestampFormatTypeUnknown,
                Pfx := "", Flag := 0 } }

/-- Logger with global tags `["a","b"]` and keyed tag `k = "v"`. -/
def lgGlob : Logger :=
  { lg7 with tags := [("tags", .strs ["a", "b"]), ("k", .str "v")] }

/-- Ordering context `[DEBUG, INFO, WARNING, ERROR]`. -/
def ls8 : LevelSet := NewLevelSet ["DEBUG", "INFO", "WARNING", "ERROR"] "DEBUG"

/-- Logger with the `ls8` ordering context attached, current minimum level
`WARNING`, level tag key `"level"`, empty tag store, plain format. -/
def lg8 : Logger := { lg7 with tags := [], levelset := some ls8, level := "WARNING" }

/-- Input lines of the multi-line conversion scenario. -/
def c5Input : List String :=
  ["2014/07/29 18:34:26 [job_id=123458] Something Happened",
   "That", "Takes",
   "2014/07/29 18:34:27 [job_id=123459] Something Happened"]

/-- First record the converter emits for `c5Input`. -/
def c5Rec1 : Tags :=
  [("timestamp", .str "2014/07/29 18:34:26"), ("job_id", .str "123458"),
   ("msg", .str "Something Happened\nThat\nTakes")]

/-- Second record the converter emits for `c5Input`. -/
def c5Rec2 : Tags :=
  [("timestamp", .str "2014/07/29 18:34:27"), ("msg", .str "Something Happened"),
   ("job_id", .str "123459")]

/-- Header line of the EmptyLine continuation scenario. -/
def c3h0 : String := "2014/07/29 18:34:26 [a=b] hello"

/-- Line consisting of a timestamp and one bracket token with no message:
`parseLinePlain` rejects it with the `Empty line` error. -/
def c3el : String := "2014/07/29 18:34:26 [a=b]"

/-- Second header line of the EmptyLine continuation scenario. -/
def c3h2 : String := "2014/07/29 18:34:27 [a=b] bye"

/-- Store built by the single call `Add("k", "a", "a")` (non-empty values). -/
def c4Dup : Tags := Tags.Add [] "k" ["a", "a"]

/-! ### C1 — `Logger.Copy` is not a value-level deep copy -/

/-- C1: the claim says mutating a copy produced by `Logger.Copy` never
changes the tag values observable in the source logger.  The code contradicts
its own `deep copy tags` comment: it copies the map entry by entry, so the
`[]string` value of `"k"` shares its backing array between source and copy.
After `src` holds `k = [a,b,c]` (length 3, capacity 4), the trace
`cp := src.Copy(); cp.PopTag("k"); cp.AddTag("k","x")` writes `"x"` into the
shared array cell holding `"c"`, and the source's observable `GetTags("k")`
changes from `[a,b,c]` to `[a,b,x]`.  The control run using the deep copy of
`Tags.Copy` (which the spec describes) leaves the source unchanged. -/
theorem c1_logger_copy_aliases_source :
    hGetAll c1Setup.1 c1Setup.2 "k" = ["a", "b", "c"]
    ∧ hGetAll c1Final.1 c1Final.2.1 "k" = ["a", "b", "x"]
    ∧ hGetAll c1Final.1 c1Final.2.1 "k" ≠ ["a", "b", "c"]
    ∧ hGetAll c1DeepFinal.1 c1DeepFinal.2.1 "k" = ["a", "b", "c"] := by
  refine ⟨by decide, by decide, by decide, by decide⟩

/-! ### C5 — multi-line conversion emits two records -/

/-- C5: converting the four `c5Input` lines emits exactly two records, the
first carrying `msg = "Something Happened\nThat\nTakes"`: each line failing
the header parse appended a newline plus its raw text to the pending
record's message. -/
theorem c5_two_records_with_joined_msg :
    (PlainToJSON DefaultParams c5Input "").1 = [some c5Rec1, some c5Rec2]
    ∧ Tags.Get c5Rec1 "msg" = "Something Happened\nThat\nTakes" := by
  refine ⟨by decide, by decide⟩

/-! ### C7 — plain rendering: sorted bracket tokens, message last -/

/-- C7: with empty prefix, no timestamp, tags
`job_id = "123456"` and `filters = ["vol","delay"]` and message
`"Message String"`, the written line is exactly
`[filters=vol,delay] [job_id=123456] Message String` (token strings sorted
lexicographically, message appended last); and global tags each render as
their own `[value]` token, interleaved into the same sorted token list. -/
theorem c7_plain_render_sorted_tokens :
    (Logger.Loutput lg7 "" "" "Message String").2 =
      some (.plain "[filters=vol,delay] [job_id=123456] Message String\n")
    ∧ (Logger.Loutput lgGlob "" "" "m").2 = some (.plain "[a] [b] [k=v] m\n") := by
  refine ⟨by decide, by decide⟩

/-! ### C2 — exhaustion without a header -/

/-- When no input line parses as a header, the header-search loop runs
through the whole input and leaves the last scanned line text behind. -/
theorem findFirstHeader_all_fail (params : Params) (tsFmt : String) :
    ∀ (input : List String) (s0 : String),
      (∀ l ∈ input, parseOk (parseLinePlain params l tsFmt) = false) →
      findFirstHeader params tsFmt input s0 = (input.getLastD s0, none, []) := by
  intro input
  induction input with
  | nil => intro s0 _; simp [findFirstHeader]
  | cons l rest ih =>
    intro s0 h
    have hl := h l (by simp)
    cases hp : parseLinePlain params l tsFmt with
    | ok t => rw [hp] at hl; simp [parseOk] at hl
    | error e =>
      have hrest : ∀ l' ∈ rest, parseOk (parseLinePlain params l' tsFmt) = false :=
        fun l' hm => h l' (by simp [hm])
      rw [List.getLastD_cons]
      simp [findFirstHeader, hp, ih l hrest]

theorem goSplit_ne_nil (sep : Char) (l : List Char) : goSplit sep l ≠ [] := by
  induction l with
  | nil => simp [goSplit]
  | cons c rest ih =>
    cases hgs : goSplit sep rest with
    | nil => exact absurd hgs ih
    | cons h t =>
      by_cases hc : c = sep <;> simp [goSplit, hgs, hc]

/-- Strings with equal character lists are equal. -/
theorem string_eq_of_data_eq (s : String) (h : s.data = []) : s = "" := by
  cases s with
  | mk data =>
    simp only at h
    subst h
    decide

/-- A non-empty layout never parses the empty value. -/
theorem parseLayout_nil_value (layout : List Char) (f : TimeFields)
    (h : layout ≠ []) : parseLayout layout [] f = none := by
  rw [parseLayout.eq_def]
  split
  all_goals try rfl
  exact absurd rfl h

/-- The empty line never parses as a header, whatever the parameters. -/
theorem parse_empty_string_fails (params : Params) (tsFmt : String) :
    parseOk (parseLinePlain params "" tsFmt) = false := by
  simp only [parseLinePlain]
  split
  · rfl
  · have hl : (if params.Pfx ≠ "" then
        ("" : String).data.drop params.Pfx.data.length
        else ("" : String).data) = [] := by
      split <;> simp
    rw [hl]
    split
    · rfl
    · rename_i hts
      have hft1 : (goSplit ' ' [] : List (List Char)) = [[]] := rfl
      rw [hft1]
      split
      · rfl
      · rename_i hnotlt
        have hpos : (goSplit ' ' (calcTsFormat params).data).length ≠ 0 := by
          simp [List.length_eq_zero, goSplit_ne_nil]
        have hft : (goSplit ' ' (calcTsFormat params).data).length = 1 := by
          simp only [List.length_singleton] at hnotlt
          omega
        rw [hft]
        have hdata : (calcTsFormat params).data ≠ [] := by
          intro hnil
          exact hts (string_eq_of_data_eq _ hnil)
        rw [show (goJoin ' ' (([[]] : List (List Char)).take 1)) = [] from rfl]
        rw [parseLayout_nil_value _ _ hdata]
        rfl

/-- C2 counterexample: the single input line `"x"` never parses as a header,
yet the converter's output is not empty — `json.Marshal` of the still-nil
pending record emits one `null` line. -/
theorem c2_counterexample_null_written :
    parseOk (parseLinePlain DefaultParams "x" "") = false
    ∧ PlainToJSON DefaultParams ["x"] "" = ([none], none)
    ∧ (PlainToJSON DefaultParams ["x"] "").1 ≠ [] := by
  refine ⟨by decide, by decide, by decide⟩

/-- When some input line parses as a header, the header-search loop stops on
a successfully parsing line. -/
theorem findFirstHeader_found (params : Params) (tsFmt : String) :
    ∀ (input : List String) (s0 l : String), l ∈ input →
      parseOk (parseLinePlain params l tsFmt) = true →
      parseOk (parseLinePlain params
        (findFirstHeader params tsFmt input s0).1 tsFmt) = true := by
  intro input
  induction input with
  | nil => intro s0 l hl _; exact absurd hl (List.not_mem_nil l)
  | cons a rest ih =>
    intro s0 l hl hok
    cases hp : parseLinePlain params a tsFmt with
    | ok t => simp [findFirstHeader, hp, parseOk]
    | error e =>
      simp only [findFirstHeader, hp]
      rcases List.mem_cons.mp hl with rfl | hmem
      · rw [hp] at hok
        simp [parseOk] at hok
      · exact ih a l hmem hok

/-- C2 (amended): when no input line parses as a header, no parse error is
reported, and the output is empty exactly when the input is empty or its
last line is the empty string — otherwise exactly one `null` record is
written; conversely, empty output only ever arises when no line parses as a
header. -/
theorem c2_no_header_output (params : Params) (tsFmt : String)
    (input : List String) :
    ((∀ l ∈ input, parseOk (parseLinePlain params l tsFmt) = false) →
      PlainToJSON params input tsFmt =
        (if input.getLastD "" = "" then [] else [none], none))
    ∧ ((PlainToJSON params input tsFmt).1 = [] →
        ∀ l ∈ input, parseOk (parseLinePlain params l tsFmt) = false) := by
  constructor
  · intro h
    unfold PlainToJSON
    rw [findFirstHeader_all_fail params tsFmt input "" h]
    by_cases hlast : input.getLastD "" = "" <;>
      simp only [List.getLastD_eq_getLast?] at hlast <;>
      simp [hlast, convertLoop, List.getLastD_eq_getLast?]
  · intro hout l hl
    by_contra hok
    rw [Bool.not_eq_false] at hok
    have hfound := findFirstHeader_found params tsFmt input "" l hl hok
    have hne : (findFirstHeader params tsFmt input "").1 ≠ "" := by
      intro hnil
      rw [hnil, parse_empty_string_fails] at hfound
      exact Bool.false_ne_true hfound
    unfold PlainToJSON at hout
    rw [if_neg hne] at hout
    simp at hout

/-- Witness for `c2_no_header_output` at the concrete input `["x"]`. -/
theorem c2_no_header_output_witness :
    PlainToJSON DefaultParams ["x"] "" = ([none], none) := by
  have h := (c2_no_header_output DefaultParams "" ["x"]).1 (by decide)
  simpa using h

/-! ### C3 — every parse failure is a continuation signal -/

/-- C3 counterexample: the middle line fails with the `Empty line` error
(not a format mismatch), yet the conversion does not abort and returns no
error — the line is appended to the pending record's message and both
records are emitted. -/
theorem c3_counterexample_empty_line_continues :
    parseLinePlain DefaultParams c3el "" = .error "Empty line"
    ∧ PlainToJSON DefaultParams [c3h0, c3el, c3h2] "" =
        ([some [("timestamp", .str "2014/07/29 18:34:26"), ("a", .str "b"),
                ("msg", .str "hello\n2014/07/29 18:34:26 [a=b]")],
          some [("timestamp", .str "2014/07/29 18:34:27"), ("msg", .str "bye"),
                ("a", .str "b")]], none) := by
  refine ⟨by decide, by decide⟩

/-- C3 (amended): once a pending record exists, a line whose parse fails
with any error — `Empty line` included — is treated as a continuation
(newline plus raw line appended to the pending record's message), and the
conversion reports no error. -/
theorem c3_any_error_is_continuation (params : Params) (tsFmt h0 l : String)
    (t0 : Tags) (hne : h0 ≠ "")
    (hok : parseLinePlain params h0 tsFmt = .ok t0)
    (hfail : parseOk (parseLinePlain params l tsFmt) = false) :
    PlainToJSON params [h0, l] tsFmt =
      ([some (Tags.Set t0 "msg" [Tags.Get t0 "msg" ++ "\n" ++ l])], none) := by
  cases hp : parseLinePlain params l tsFmt with
  | ok t => rw [hp] at hfail; simp [parseOk] at hfail
  | error e =>
    simp [PlainToJSON, findFirstHeader, hok, hne, convertLoop, hp, contMsg]

/-- Witness for `c3_any_error_is_continuation`: the header `c3h0` followed
by the `Empty line`-failing line `c3el`. -/
theorem c3_any_error_is_continuation_witness :
    PlainToJSON DefaultParams [c3h0, c3el] "" =
      ([some (Tags.Set
          [("timestamp", .str "2014/07/29 18:34:26"), ("msg", .str "hello"),
           ("a", .str "b")] "msg"
          [Tags.Get
            [("timestamp", TagVal.str "2014/07/29 18:34:26"), ("msg", TagVal.str "hello"),
             ("a", TagVal.str "b")] "msg" ++ "\n" ++ c3el])], none) :=
  c3_any_error_is_continuation DefaultParams "" c3h0 c3el _
    (by decide) (by decide) (by decide)

/-! ### Tag-store lemmas -/

theorem lookup_nil (k : String) : Tags.lookup [] k = none := rfl

theorem lookup_cons_self (k : String) (v : TagVal) (t : Tags) :
    Tags.lookup ((k, v) :: t) k = some v := by
  simp [Tags.lookup, List.find?]

theorem lookup_cons_ne (k k' : String) (v : TagVal) (t : Tags) (h : k' ≠ k) :
    Tags.lookup ((k, v) :: t) k' = Tags.lookup t k' := by
  have hb : (k == k') = false := by simp [Ne.symm h]
  simp [Tags.lookup, List.find?, hb]

theorem lookup_eq_none_iff (t : Tags) (k : String) :
    Tags.lookup t k = none ↔ ∀ p ∈ t, p.1 ≠ k := by
  simp [Tags.lookup, List.find?_eq_none]

theorem lookup_assign_self (t : Tags) (k : String) (v : TagVal) :
    Tags.lookup (Tags.assign t k v) k = some v := by
  induction t with
  | nil => simp [Tags.assign, lookup_cons_self]
  | cons p rest ih =>
    by_cases hp : p.1 = k
    · simp [Tags.assign, hp, lookup_cons_self]
    · obtain ⟨k0, v0⟩ := p
      simp only at hp
      simp [Tags.assign, hp, lookup_cons_ne _ _ _ _ (Ne.symm hp), ih]

theorem lookup_assign_ne (t : Tags) (k k' : String) (v : TagVal) (h : k' ≠ k) :
    Tags.lookup (Tags.assign t k v) k' = Tags.lookup t k' := by
  induction t with
  | nil => simp [Tags.assign, lookup_cons_ne _ _ _ _ h, lookup_nil]
  | cons p rest ih =>
    obtain ⟨k0, v0⟩ := p
    by_cases hp : k0 = k
    · subst hp
      simp [Tags.assign, lookup_cons_ne _ _ _ _ h]
    · simp only [Tags.assign, beq_iff_eq, hp, if_false]
      by_cases hk0 : k' = k0
      · subst hk0
        simp [lookup_cons_self]
      · simp [lookup_cons_ne _ _ _ _ hk0, ih]

theorem lookup_assign_absent (t : Tags) (k : String) (v : TagVal)
    (h : Tags.lookup t k = none) : Tags.assign t k v = t ++ [(k, v)] := by
  induction t with
  | nil => simp [Tags.assign]
  | cons p rest ih =>
    obtain ⟨k0, v0⟩ := p
    have hk0 : k0 ≠ k := by
      intro hk; subst hk
      rw [lookup_cons_self] at h; exact Option.noConfusion h
    rw [lookup_cons_ne _ _ _ _ (Ne.symm hk0)] at h
    simp [Tags.assign, hk0, ih h]

theorem assign_assign (t : Tags) (k : String) (v1 v2 : TagVal) :
    Tags.assign (Tags.assign t k v1) k v2 = Tags.assign t k v2 := by
  induction t with
  | nil => simp [Tags.assign]
  | cons p rest ih =>
    obtain ⟨k0, v0⟩ := p
    by_cases hp : k0 = k <;> simp [Tags.assign, hp, ih]

theorem assign_own (t : Tags) (k : String) (v : TagVal)
    (h : Tags.lookup t k = some v) : Tags.assign t k v = t := by
  induction t with
  | nil => rw [lookup_nil] at h; exact Option.noConfusion h
  | cons p rest ih =>
    obtain ⟨k0, v0⟩ := p
    by_cases hp : k0 = k
    · subst hp
      rw [lookup_cons_self] at h
      obtain rfl : v0 = v := Option.some_injective _ h
      simp [Tags.assign]
    · rw [lookup_cons_ne _ _ _ _ (Ne.symm hp)] at h
      simp [Tags.assign, hp, ih h]

theorem lookup_append_left_none (t t' : Tags) (k : String)
    (h : Tags.lookup t k = none) :
    Tags.lookup (t ++ t') k = Tags.lookup t' k := by
  induction t with
  | nil => simp
  | cons p rest ih =>
    obtain ⟨k0, v0⟩ := p
    have hk0 : k0 ≠ k := by
      intro hk; subst hk
      rw [lookup_cons_self] at h; exact Option.noConfusion h
    rw [lookup_cons_ne _ _ _ _ (Ne.symm hk0)] at h
    rw [List.cons_append, lookup_cons_ne _ _ _ _ (Ne.symm hk0), ih h]

theorem del_append_absent (t : Tags) (k : String) (v : TagVal)
    (h : Tags.lookup t k = none) : Tags.del (t ++ [(k, v)]) k = t := by
  rw [lookup_eq_none_iff] at h
  simp only [Tags.del, List.filter_append]
  rw [List.filter_eq_self.mpr, List.filter_cons]
  · simp
  · intro p hp
    simp [h p hp]

/-! ### C9 — `Add` then `Pop` restores the store -/

/-- Prior cardinalities of a key enumerated by the claim: absent, a single
string, or a multi-value sequence. -/
def priorCardOk : Option TagVal → Bool
  | none => true
  | some (.str _) => true
  | some (.strs vs) => decide (2 ≤ vs.length)

/-- C9: for every key and value, `Add(k, v)` followed by `Pop(k)` restores
the tag store exactly, whether the key was previously absent, held a single
string, or held a multi-value sequence. -/
theorem c9_add_pop_restores (t : Tags) (k v : String)
    (h : priorCardOk (Tags.lookup t k) = true) :
    Tags.Pop (Tags.Add t k [v]) k = t := by
  have hadd : Tags.Add t k [v] = Tags.add1 t k v := rfl
  cases hl : Tags.lookup t k with
  | none =>
    have h1 : Tags.Add t k [v] = t ++ [(k, .str v)] := by
      rw [hadd]
      simp only [Tags.add1, hl]
      exact lookup_assign_absent t k _ hl
    rw [h1]
    simp only [Tags.Pop, lookup_append_left_none t _ k hl, lookup_cons_self]
    exact del_append_absent t k _ hl
  | some tv =>
    cases tv with
    | str s =>
      have h1 : Tags.Add t k [v] = Tags.assign t k (.strs [s, v]) := by
        rw [hadd]; simp only [Tags.add1, hl]
      rw [h1]
      simp only [Tags.Pop, lookup_assign_self]
      rw [if_neg (by simp), if_pos (by simp)]
      simp only [List.headD_cons]
      rw [assign_assign]
      exact assign_own t k _ hl
    | strs vs =>
      rw [hl] at h
      have hlen : 2 ≤ vs.length := by simpa [priorCardOk] using h
      have h1 : Tags.Add t k [v] = Tags.assign t k (.strs (vs ++ [v])) := by
        rw [hadd]; simp only [Tags.add1, hl]
      rw [h1]
      simp only [Tags.Pop, lookup_assign_self]
      rw [if_neg (by simp only [List.length_append, List.length_cons,
            List.length_nil]; omega),
          if_neg (by simp only [List.length_append, List.length_cons,
            List.length_nil]; omega)]
      rw [List.dropLast_concat, assign_assign]
      exact assign_own t k _ hl

/-- Witness for `c9_add_pop_restores` at the three prior cardinalities. -/
theorem c9_add_pop_restores_witness :
    Tags.Pop (Tags.Add [] "k" ["v"]) "k" = []
    ∧ Tags.Pop (Tags.Add [("k", .str "a")] "k" ["v"]) "k" = [("k", .str "a")]
    ∧ Tags.Pop (Tags.Add [("k", .strs ["a", "b"])] "k" ["v"]) "k" =
        [("k", .strs ["a", "b"])] :=
  ⟨c9_add_pop_restores [] "k" "v" (by decide),
   c9_add_pop_restores [("k", .str "a")] "k" "v" (by decide),
   c9_add_pop_restores [("k", .strs ["a", "b"])] "k" "v" (by decide)⟩

/-! ### C4 — export/import round trip -/

theorem getAll_of_lookup (t : Tags) (k : String) (v : TagVal)
    (h : Tags.lookup t k = v) : Tags.GetAll t k = tagValList v := by
  cases v with
  | str s => simp [Tags.GetAll, h, tagValList]
  | strs vs => simp [Tags.GetAll, h, tagValList]

theorem getAll_of_lookup_none (t : Tags) (k : String)
    (h : Tags.lookup t k = none) : Tags.GetAll t k = [] := by
  simp [Tags.GetAll, h]

theorem lookup_add1_ne (t : Tags) (k k' v : String) (h : k' ≠ k) :
    Tags.lookup (Tags.add1 t k v) k' = Tags.lookup t k' := by
  cases hl : Tags.lookup t k <;> simp only [Tags.add1, hl]
  case none => exact lookup_assign_ne t k k' _ h
  case some tv =>
    cases tv <;> exact lookup_assign_ne t k k' _ h

theorem getAll_add1_self (t : Tags) (k v : String) :
    Tags.GetAll (Tags.add1 t k v) k = Tags.GetAll t k ++ [v] := by
  cases hl : Tags.lookup t k with
  | none =>
    simp only [Tags.add1, hl]
    rw [getAll_of_lookup _ k _ (lookup_assign_self t k _),
      getAll_of_lookup_none t k hl]
    rfl
  | some tv =>
    cases tv with
    | str s =>
      simp only [Tags.add1, hl]
      rw [getAll_of_lookup _ k _ (lookup_assign_self t k _),
        getAll_of_lookup t k _ hl]
      rfl
    | strs vs =>
      simp only [Tags.add1, hl]
      rw [getAll_of_lookup _ k _ (lookup_assign_self t k _),
        getAll_of_lookup t k _ hl]
      rfl

theorem lookup_merge1_ne (t : Tags) (k k' v : String) (h : k' ≠ k) :
    Tags.lookup (Tags.merge1 t k v) k' = Tags.lookup t k' := by
  by_cases hm : v ∈ Tags.GetAll t k
  · simp [Tags.merge1, hm]
  · simp [Tags.merge1, hm, lookup_add1_ne t k k' v h]

theorem lookup_merge_ne (t : Tags) (k k' : String) (vs : List String)
    (h : k' ≠ k) :
    Tags.lookup (Tags.Merge t k vs) k' = Tags.lookup t k' := by
  induction vs generalizing t with
  | nil => rfl
  | cons v vs' ih =>
    show Tags.lookup (Tags.Merge (Tags.merge1 t k v) k vs') k' = _
    rw [ih (Tags.merge1 t k v), lookup_merge1_ne t k k' v h]

theorem getAll_merge_fresh (t : Tags) (k : String) (vs : List String)
    (hnd : vs.Nodup) (hdisj : ∀ v ∈ vs, v ∉ Tags.GetAll t k) :
    Tags.GetAll (Tags.Merge t k vs) k = Tags.GetAll t k ++ vs := by
  induction vs generalizing t with
  | nil => simp [Tags.Merge]
  | cons v vs' ih =>
    have hv : v ∉ Tags.GetAll t k := hdisj v (by simp)
    show Tags.GetAll (Tags.Merge (Tags.merge1 t k v) k vs') k = _
    have hm1 : Tags.merge1 t k v = Tags.add1 t k v := by simp [Tags.merge1, hv]
    rw [hm1, ih (Tags.add1 t k v) (List.Nodup.of_cons hnd)]
    · rw [getAll_add1_self]
      simp
    · intro w hw
      rw [getAll_add1_self]
      have hwv : w ≠ v := by
        rintro rfl
        exact (List.nodup_cons.mp hnd).1 hw
      simp only [List.mem_append, List.mem_singleton]
      rintro (hmem | rfl)
      · exact hdisj w (by simp [hw]) hmem
      · exact hwv rfl

/-- Duplicate-freedom of a single tag value. -/
def tagValNodup : TagVal → Bool
  | .str _ => true
  | .strs vs => decide vs.Nodup

theorem tagValList_nodup (v : TagVal) (h : tagValNodup v = true) :
    (tagValList v).Nodup := by
  cases v with
  | str s => simp [tagValList]
  | strs vs => simpa [tagValNodup, tagValList] using h

/-- Stores with equal lookups at given keys have equal value sequences. -/
theorem getAll_eq_of_lookup_eq (t t' : Tags) (k k' : String)
    (h : Tags.lookup t k = Tags.lookup t' k') :
    Tags.GetAll t k = Tags.GetAll t' k' := by
  rw [Tags.GetAll, Tags.GetAll, h]

/-- Import of an export, generalised over the accumulating store: as long as
the exported keys are distinct, duplicate-free and fresh for the
accumulator, importing appends each key's values. -/
theorem import_export_aux (t : Tags) :
    ∀ acc : Tags, (t.map Prod.fst).Nodup →
      (∀ p ∈ t, tagValNodup p.2 = true) →
      (∀ p ∈ t, Tags.GetAll acc p.1 = []) →
      ∀ k, Tags.GetAll (Tags.Import acc (Tags.Export t)) k =
        Tags.GetAll acc k ++ Tags.GetAll t k := by
  induction t with
  | nil =>
    intro acc _ _ _ k
    simp [Tags.Import, Tags.Export, Tags.GetAll, Tags.lookup]
  | cons p rest ih =>
    intro acc hk hv hfresh k
    obtain ⟨k0, v0⟩ := p
    rw [List.map_cons] at hk
    have hk1 := (List.nodup_cons.mp hk).1
    have hk2 := (List.nodup_cons.mp hk).2
    have hk0rest : ∀ q ∈ rest, q.1 ≠ k0 := by
      intro q hq hq1
      have hmem : q.1 ∈ rest.map Prod.fst := List.mem_map_of_mem Prod.fst hq
      rw [hq1] at hmem
      exact hk1 hmem
    have hacc0 : Tags.GetAll acc k0 = [] := hfresh (k0, v0) (by simp)
    have hstep : Tags.Import acc (Tags.Export ((k0, v0) :: rest)) =
        Tags.Import (Tags.Merge acc k0 (tagValList v0)) (Tags.Export rest) := rfl
    rw [hstep]
    have hmerge0 : Tags.GetAll (Tags.Merge acc k0 (tagValList v0)) k0 =
        tagValList v0 := by
      rw [getAll_merge_fresh acc k0 _ (tagValList_nodup v0 (hv (k0, v0) (by simp)))
        (by rw [hacc0]; simp), hacc0]
      simp
    have hfresh' : ∀ q ∈ rest,
        Tags.GetAll (Tags.Merge acc k0 (tagValList v0)) q.1 = [] := by
      intro q hq
      rw [getAll_eq_of_lookup_eq _ acc q.1 q.1
        (lookup_merge_ne acc k0 q.1 _ (hk0rest q hq))]
      exact hfresh q (by simp [hq])
    have hrec := ih (Tags.Merge acc k0 (tagValList v0)) hk2
      (fun q hq => hv q (by simp [hq])) hfresh' k
    rw [hrec]
    by_cases hkk : k = k0
    · subst hkk
      rw [hmerge0]
      have hrest0 : Tags.GetAll rest k = [] := by
        apply getAll_of_lookup_none
        rw [lookup_eq_none_iff]
        intro q hq
        exact hk0rest q hq
      rw [hrest0, hacc0]
      rw [getAll_of_lookup ((k, v0) :: rest) k v0 (lookup_cons_self k v0 rest)]
      simp
    · rw [getAll_eq_of_lookup_eq _ acc k k (lookup_merge_ne acc k0 k _ hkk),
        getAll_eq_of_lookup_eq ((k0, v0) :: rest) rest k k
          (lookup_cons_ne k0 k v0 rest hkk)]

/-- C4 counterexample: the store built by the single call
`Add("k", "a", "a")` — only `Add` calls, only non-empty values — does not
round-trip: `Import` goes through `Merge`, which drops the duplicate, so the
reproduced mapping differs. -/
theorem c4_counterexample_duplicates_dropped :
    c4Dup = [("k", .strs ["a", "a"])]
    ∧ Tags.GetAll c4Dup "k" = ["a", "a"]
    ∧ Tags.GetAll (Tags.Import [] (Tags.Export c4Dup)) "k" = ["a"]
    ∧ Tags.GetAll (Tags.Import [] (Tags.Export c4Dup)) "k" ≠
        Tags.GetAll c4Dup "k" := by
  refine ⟨by decide, by decide, by decide, by decide⟩

/-- C4 (amended): for every tag store with distinct keys in which no key's
value sequence holds a duplicate value, `Export` followed by `Import` into a
fresh empty store reproduces an equal key-to-value-sequence mapping, with
per-key value order preserved. -/
theorem c4_export_import_roundtrip (t : Tags)
    (hk : (t.map Prod.fst).Nodup)
    (hv : ∀ p ∈ t, tagValNodup p.2 = true) (k : String) :
    Tags.GetAll (Tags.Import [] (Tags.Export t)) k = Tags.GetAll t k := by
  have h := import_export_aux t [] hk hv (fun p _ => rfl) k
  rw [h]
  rfl

/-- Witness for `c4_export_import_roundtrip` on the store
`job_id = "123456"`, `filters = ["vol","delay"]`. -/
theorem c4_export_import_roundtrip_witness :
    Tags.GetAll (Tags.Import []
        (Tags.Export [("job_id", .str "123456"), ("filters", .strs ["vol", "delay"])]))
      "filters" =
    Tags.GetAll [("job_id", .str "123456"), ("filters", .strs ["vol", "delay"])]
      "filters" :=
  c4_export_import_roundtrip _ (by decide) (by decide) "filters"

/-! ### C6 — bracket-token splitting on `=` -/

theorem goSplit_no_sep (sep : Char) (l : List Char) (h : sep ∉ l) :
    goSplit sep l = [l] := by
  induction l with
  | nil => rfl
  | cons c rest ih =>
    have hc : c ≠ sep := fun hc => h (hc ▸ List.mem_cons_self c rest)
    have hrest : sep ∉ rest := fun hm => h (List.mem_cons_of_mem c hm)
    simp [goSplit, ih hrest, hc]

theorem goSplit_append_sep (sep : Char) (pre rest : List Char)
    (h : sep ∉ pre) :
    goSplit sep (pre ++ sep :: rest) = pre :: goSplit sep rest := by
  induction pre with
  | nil =>
    cases hgs : goSplit sep rest with
    | nil => exact absurd hgs (goSplit_ne_nil sep rest)
    | cons h0 t0 => simp [goSplit, hgs]
  | cons c pre' ih =>
    have hc : c ≠ sep := fun hc => h (hc ▸ List.mem_cons_self c pre')
    have hpre : sep ∉ pre' := fun hm => h (List.mem_cons_of_mem c hm)
    simp [goSplit, ih hpre, hc]

/-- C6 counterexample: the bracket token `k=1=2` holds a second `=`; the
claim requires everything right of the first `=` to become the values
(`Get "k" = "1=2"`), but the code only keeps the text between the first and
second `=` and drops the tail. -/
theorem c6_counterexample_second_eq_dropped :
    addToken [] ['k', '=', '1', '=', '2'] = [("k", .str "1")]
    ∧ Tags.Add [] "k" ["1=2"] = [("k", .str "1=2")]
    ∧ addToken [] ['k', '=', '1', '=', '2'] ≠ Tags.Add [] "k" ["1=2"] := by
  refine ⟨by decide, by decide, by decide⟩

/-- C6 (amended): a bracket token without `=` is added whole as a global
tag; otherwise the text left of the first `=` is the key and only the text
between the first and the second `=` (the entire remainder when no second
`=` exists) is split on `,` into the values — everything from a second `=`
on is discarded. -/
theorem c6_token_split (tags : Tags) (t k v1 rest : List Char)
    (ht : '=' ∉ t) (hk : '=' ∉ k) (hv : '=' ∉ v1) :
    addToken tags t = Tags.Add tags "tags" [String.mk t]
    ∧ addToken tags (k ++ '=' :: v1) =
        Tags.Add tags (String.mk k) ((goSplit ',' v1).map String.mk)
    ∧ addToken tags (k ++ '=' :: (v1 ++ '=' :: rest)) =
        Tags.Add tags (String.mk k) ((goSplit ',' v1).map String.mk) := by
  refine ⟨?_, ?_, ?_⟩
  · rw [addToken, goSplit_no_sep '=' t ht]
    simp
  · rw [addToken, goSplit_append_sep '=' k (v1) hk, goSplit_no_sep '=' v1 hv]
    simp
  · rw [addToken, goSplit_append_sep '=' k (v1 ++ '=' :: rest) hk,
      goSplit_append_sep '=' v1 rest hv]
    simp

/-- Witness for `c6_token_split` at the tokens `g`, `k=1` and `k=1=2`. -/
theorem c6_token_split_witness :
    addToken [] ['g'] = Tags.Add [] "tags" [String.mk ['g']]
    ∧ addToken [] (['k'] ++ '=' :: ['1']) =
        Tags.Add [] (String.mk ['k']) ((goSplit ',' ['1']).map String.mk)
    ∧ addToken [] (['k'] ++ '=' :: (['1'] ++ '=' :: ['2'])) =
        Tags.Add [] (String.mk ['k']) ((goSplit ',' ['1']).map String.mk) :=
  c6_token_split [] ['g'] ['k'] ['1'] ['2'] (by decide) (by decide) (by decide)

/-! ### C8 — level gating -/

/-- C8: with ordering context `[DEBUG, INFO, WARNING, ERROR]` and current
minimum level `WARNING`, `Loutput` at `INFO` writes nothing and leaves the
logger (tag store included) unchanged, while `Loutput` at `ERROR` writes a
record carrying `level=ERROR` (and the deferred deletion restores the tag
store); in general, with a level supplied, an ordering context attached, a
current minimum set and the plain format, the record is suppressed with no
side effects exactly when the supplied level is strictly less severe than
the current minimum. -/
theorem c8_level_gating :
    Logger.Loutput lg8 "" "INFO" "msg" = (lg8, none)
    ∧ (Logger.Loutput lg8 "" "ERROR" "msg").2 =
        some (.plain "[level=ERROR] msg\n")
    ∧ (Logger.Loutput lg8 "" "ERROR" "msg").1 = lg8
    ∧ (∀ (lg : Logger) (ls : LevelSet) (nowStr level s : String),
        lg.levelset = some ls → level ≠ "" → lg.level ≠ "" →
        lg.params.Format = FormatPlain →
        (((Logger.Loutput lg nowStr level s).2 = none
            ∧ (Logger.Loutput lg nowStr level s).1 = lg)
          ↔ ls.Less level lg.level = true)) := by
  refine ⟨by decide, by decide, by decide, ?_⟩
  intro lg ls nowStr level s hset hlevel hcur hfmt
  have hJSON : lg.params.Format ≠ FormatJSON := by
    rw [hfmt]
    simp [FormatPlain, FormatJSON]
  cases hLess : ls.Less level lg.level with
  | true =>
    simp [Logger.Loutput, hset, hlevel, hcur, hLess]
  | false =>
    simp only [Logger.Loutput, hset, Option.isSome_some, Bool.and_true,
      Option.getD_some, hLess, Bool.false_eq_true, if_false]
    have hbne : ((level != "") && (lg.level != "")) = true := by
      simp [hlevel, hcur]
    rw [if_pos hbne]
    simp [finishOutput, hfmt, FormatPlain, FormatJSON]

/-- Witness for the gating equivalence of `c8_level_gating`: suppression of
an `INFO` record below the `WARNING` minimum. -/
theorem c8_level_gating_witness :
    (Logger.Loutput lg8 "" "INFO" "m").2 = none
    ∧ (Logger.Loutput lg8 "" "INFO" "m").1 = lg8 :=
  (c8_level_gating.2.2.2 lg8 ls8 "" "INFO" "m" rfl (by decide) (by decide)
    rfl).mpr (by decide)

/-! ### C10 — a header-only line is rejected as `Empty line` -/

/-- Content of a plain line that consists of bracketed tag tokens only,
separated by single spaces, with nothing after the final `]`. -/
def mkHeaderChars : List (List Char) → List Char
  | [] => []
  | [t] => '[' :: (t ++ [']'])
  | t :: rest => '[' :: (t ++ (']' :: (' ' :: mkHeaderChars rest)))

/-- Scanning the inside of a bracket token: the characters up to the closing
`]` are accumulated and the message start lands two positions after it. -/
theorem scan_token (t : List Char) :
    ∀ (i : Nat) (acc rest : List Char) (toks : List (List Char)) (ms : Nat),
      ']' ∉ t →
      scanBrackets (t ++ ']' :: rest) i (some acc) toks ms =
        scanBrackets rest (i + t.length + 1) none (toks ++ [acc ++ t])
          (i + t.length + 2) := by
  induction t with
  | nil =>
    intro i acc rest toks ms _
    simp [scanBrackets]
  | cons c t' ih =>
    intro i acc rest toks ms ht
    have hc : c ≠ ']' := fun h => ht (h ▸ List.mem_cons_self c t')
    have ht' : ']' ∉ t' := fun h => ht (List.mem_cons_of_mem c h)
    show scanBrackets (c :: (t' ++ ']' :: rest)) i (some acc) toks ms = _
    simp only [scanBrackets, hc, if_false]
    rw [ih (i + 1) (acc ++ [c]) rest toks ms ht']
    have h1 : i + 1 + t'.length + 1 = i + (c :: t').length + 1 := by
      simp only [List.length_cons]; omega
    have h2 : i + 1 + t'.length + 2 = i + (c :: t').length + 2 := by
      simp only [List.length_cons]; omega
    have h3 : (acc ++ [c]) ++ t' = acc ++ (c :: t') := by simp
    rw [h1, h2, h3]

/-- Scanning a line made of bracket tokens only: every token is collected
and the message start ends up one past the end of the line. -/
theorem scan_header (tokens : List (List Char)) :
    ∀ (i : Nat) (toks : List (List Char)) (ms : Nat),
      tokens ≠ [] → (∀ t ∈ tokens, ']' ∉ t) →
      scanBrackets (mkHeaderChars tokens) i none toks ms =
        (toks ++ tokens, i + (mkHeaderChars tokens).length + 1) := by
  induction tokens with
  | nil => intro i toks ms h _; exact absurd rfl h
  | cons t rest ih =>
    intro i toks ms _ hall
    have ht : ']' ∉ t := hall t (by simp)
    cases rest with
    | nil =>
      show scanBrackets ('[' :: (t ++ [']'])) i none toks ms = _
      simp only [scanBrackets, if_pos rfl,
        show ('[' : Char) ≠ ']' by decide, if_false, if_pos rfl]
      rw [show (t ++ [']'] : List Char) = t ++ ']' :: [] from rfl]
      rw [scan_token t (i + 1) [] [] toks ms ht]
      simp only [scanBrackets, List.nil_append]
      rw [Prod.mk.injEq]
      constructor
      · rfl
      · show i + 1 + t.length + 2 = i + (mkHeaderChars [t]).length + 1
        simp only [mkHeaderChars, List.length_cons, List.length_append,
          List.length_nil]
        omega
    | cons r rs =>
      show scanBrackets ('[' :: (t ++ (']' :: (' ' :: mkHeaderChars (r :: rs)))))
          i none toks ms = _
      simp only [scanBrackets, show ('[' : Char) ≠ ']' by decide, if_false,
        if_pos rfl]
      rw [scan_token t (i + 1) [] (' ' :: mkHeaderChars (r :: rs)) toks ms ht]
      simp only [scanBrackets, show (' ' : Char) ≠ ']' by decide,
        show (' ' : Char) ≠ '[' by decide, if_false, if_true, List.nil_append]
      rw [ih (i + 1 + t.length + 1 + 1) (toks ++ [t]) (i + 1 + t.length + 2)
        (by simp) (fun u hu => hall u (by simp [hu]))]
      rw [Prod.mk.injEq]
      constructor
      · simp
      · show i + 1 + t.length + 1 + 1 + (mkHeaderChars (r :: rs)).length + 1 =
          i + (mkHeaderChars (t :: r :: rs)).length + 1
        have hlen : (mkHeaderChars (t :: r :: rs)).length =
            t.length + 3 + (mkHeaderChars (r :: rs)).length := by
          show ('[' :: (t ++ (']' :: (' ' :: mkHeaderChars (r :: rs))))).length = _
          simp only [List.length_cons, List.length_append]
          omega
        omega

/-- Parameter bundle with empty prefix and an empty resolved timestamp
layout (custom format type, no flags). -/
def params10 : Params :=
  { Format := FormatPlain
    TimestampFormat := ""
    TimestampFormatType := TimestampFormatTypeUnknown
    Pfx := ""
    Flag := 0 }

/-- C10: a plain line whose content is one or more bracketed tag tokens with
no message text after the final closing bracket fails to parse with the
`Empty line` error: the message start index is advanced two positions past
each closing bracket and ends one past the line's end. -/
theorem c10_header_only_line_rejected (tokens : List (List Char))
    (tsFmt : String) (hne : tokens ≠ []) (hall : ∀ t ∈ tokens, ']' ∉ t) :
    parseLinePlain params10 (String.mk (mkHeaderChars tokens)) tsFmt =
      .error "Empty line" := by
  have h0 : parseLinePlain params10 (String.mk (mkHeaderChars tokens)) tsFmt =
      parseLineBody [] (mkHeaderChars tokens) := rfl
  rw [h0]
  simp only [parseLineBody]
  rw [scan_header tokens 0 [] 0 hne hall]
  rw [if_pos]
  show 0 + (mkHeaderChars tokens).length + 1 ≥ (String.mk (mkHeaderChars tokens)).data.length
  show 0 + (mkHeaderChars tokens).length + 1 ≥ (mkHeaderChars tokens).length
  omega

/-- Witness for `c10_header_only_line_rejected` at the line `[a]`. -/
theorem c10_header_only_line_rejected_witness :
    parseLinePlain params10 (String.mk (mkHeaderChars [['a']])) "" =
      .error "Empty line" :=
  c10_header_only_line_rejected [['a']] "" (by simp) (by decide)

end Taglog
